import Mathlib

/-!
Verification of the HackerCraft portfolio game engine.

The repository contains two implementations of the same concept:
an object-oriented engine (`js/hackercraft-engine.js`, classes
`HackercraftEngine` / `UIManager` / `SaveManager`) and a closure-based
module (the unnamed source file, IIFE with `setupParkour`,
`setupToastStack`, `awardAchievement`, ...).

This file gives a shallow embedding of the logic relevant to the
specification claims:

* the engine progression state and `addXP` level-up loop;
* `SaveManager.save` / `SaveManager.load` (localStorage is modelled as
  an `Option SaveData`; JSON serialization of the plain record is
  assumed faithful);
* `HackercraftEngine.switchHotbar` / `switchBiome` (the mutual
  recursion is modelled with explicit fuel, `none` standing for
  non-termination);
* the `UIManager` toast queue (`showToast` / `processToastQueue`), as
  an event-driven state machine, plus a timed refinement for the
  3000 ms / 500 ms timer claims;
* the module version's `createToast` stack (toasts displayed
  immediately, no queueing);
* the module version's parkour physics loop (`setupParkour`), over ℚ
  (JS doubles are modelled as exact rationals; every computation in
  scope is a small ratio of decimal literals), together with the
  `requestAnimationFrame` scheduling skeleton and `destroy`.

DOM reads/writes and the sound/animation collaborators are modelled by
ghost logs (lists of emitted toast and sound events) so that "emits
exactly one notification" claims are statable.
-/

/-! ## Engine progression state (js/hackercraft-engine.js) -/

/-- The fields of `HackercraftEngine.state` used by the claims, plus
ghost logs of emitted toasts and played sounds. -/
structure EngineState where
  currentScreen : String
  currentBiome : String
  xp : ℕ
  level : ℕ
  xpToNext : ℕ
  unlockedAchievements : List String
  hotbarIndex : ℤ
  volume : ℚ
  sfxVolume : ℚ
  darkTheme : Bool
  sounds : List String
  toasts : List (String × String)
  deriving DecidableEq, Repr

/-- The constructor defaults of `HackercraftEngine.state`. -/
def engineInit : EngineState :=
  { currentScreen := "title", currentBiome := "forest", xp := 0, level := 1,
    xpToNext := 100, unlockedAchievements := [], hotbarIndex := 0,
    volume := 1/2, sfxVolume := 7/10, darkTheme := true,
    sounds := [], toasts := [] }

/-- `Math.floor(xpToNext * 1.5)` on a natural number. -/
def xpGrow (t : ℕ) : ℕ := 3 * t / 2

/-- The `while (xp >= xpToNext)` carry loop of `HackercraftEngine.addXP`:
subtract the threshold, bump the level, grow the threshold.  The JS loop
does not terminate when `xpToNext = 0`; that (unreachable) case is
guarded so the Lean function is total, and the theorems assume
`1 ≤ xpToNext`. -/
def levelLoop (xp t level : ℕ) : ℕ × ℕ × ℕ :=
  if h : 0 < t ∧ t ≤ xp then
    levelLoop (xp - t) (xpGrow t) (level + 1)
  else
    (xp, t, level)
termination_by xp
decreasing_by exact Nat.sub_lt (Nat.lt_of_lt_of_le h.1 h.2) h.1

/-- `HackercraftEngine.addXP`: add the amount, then run the carry loop.
(The toast and sound emitted per level-up are not needed by claim C10
and are omitted here; they are modelled in the toast-queue section.) -/
def addXP (amount : ℕ) (s : EngineState) : EngineState :=
  let r := levelLoop (s.xp + amount) s.xpToNext s.level
  { s with xp := r.1, xpToNext := r.2.1, level := r.2.2 }

/-- The `i`-th threshold reached by repeatedly applying `xpGrow`,
starting from `t`. -/
def thrIter (t : ℕ) : ℕ → ℕ
  | 0 => t
  | k + 1 => thrIter (xpGrow t) k

/-- Total XP consumed by `k` consecutive level-ups starting at
threshold `t`. -/
def thrSum (t : ℕ) : ℕ → ℕ
  | 0 => 0
  | k + 1 => t + thrSum (xpGrow t) k

theorem xpGrow_pos {t : ℕ} (h : 1 ≤ t) : 1 ≤ xpGrow t := by
  unfold xpGrow; omega

/-- Full characterization of the carry loop: it performs some number `k`
of iterations, each consuming one threshold, bumping the level once and
growing the threshold once; the result is below the final threshold and
no XP is lost. -/
theorem levelLoop_spec :
    ∀ x t l, 1 ≤ t →
      ∃ k, levelLoop x t l = (x - thrSum t k, thrIter t k, l + k) ∧
        thrSum t k ≤ x ∧ x - thrSum t k < thrIter t k := by
  intro x
  induction x using Nat.strong_induction_on with
  | _ x ih =>
    intro t l ht
    rw [levelLoop]
    by_cases hc : 0 < t ∧ t ≤ x
    · have hlt : x - t < x := Nat.sub_lt (Nat.lt_of_lt_of_le hc.1 hc.2) hc.1
      obtain ⟨k, hk, hle, hfin⟩ := ih (x - t) hlt (xpGrow t) (l + 1) (xpGrow_pos ht)
      refine ⟨k + 1, ?_, ?_, ?_⟩
      · rw [dif_pos hc, hk]
        refine congrArg₂ Prod.mk ?_ (congrArg₂ Prod.mk rfl (by omega))
        show x - t - thrSum (xpGrow t) k = x - thrSum t (k + 1)
        simp only [thrSum]
        omega
      · simp only [thrSum]; omega
      · simp only [thrSum, thrIter]
        have : x - t - thrSum (xpGrow t) k = x - (t + thrSum (xpGrow t) k) := by omega
        rw [← this]
        exact hfin
    · refine ⟨0, ?_, ?_, ?_⟩
      · rw [dif_neg hc]; simp [thrSum, thrIter]
      · simp [thrSum]
      · simp only [thrSum, thrIter]; omega

/-! ## SaveManager (js/hackercraft-engine.js) -/

/-- The record written by `SaveManager.save` to localStorage (as one
JSON blob under `hackercraft_save`). -/
structure SaveData where
  xp : ℕ
  level : ℕ
  unlockedAchievements : List String
  volume : ℚ
  sfxVolume : ℚ
  darkTheme : Bool
  lastSave : ℕ
  deriving DecidableEq, Repr

/-- `SaveManager.save`: snapshot of the persisted fields
(`Array.from` of the achievements `Set` keeps insertion order, so the
set is modelled as a duplicate-free list and saving is the identity on
it).  `time` stands for `Date.now()`. -/
def smSave (s : EngineState) (time : ℕ) : SaveData :=
  { xp := s.xp, level := s.level,
    unlockedAchievements := s.unlockedAchievements,
    volume := s.volume, sfxVolume := s.sfxVolume,
    darkTheme := s.darkTheme, lastSave := time }

/-- JavaScript `a || b` on a number: `0` (and `NaN`, not modelled) is
falsy, every other number is truthy. -/
def jsOrQ (v d : ℚ) : ℚ := if v = 0 then d else v

/-- JavaScript `a || b` on a natural number. -/
def jsOrN (v d : ℕ) : ℕ := if v = 0 then d else v

/-- `SaveManager.load`: `none` models a missing/unparsable blob (the
function returns early / falls back, leaving the state unchanged);
`some` models a parsed record, loaded through `||`-defaults as in the
source (`saveData.xp || 0`, `saveData.level || 1`,
`saveData.volume || 0.5`, `saveData.sfxVolume || 0.7`,
`new Set(saveData.unlockedAchievements || [])`, and a
`!== undefined` check for `darkTheme`). -/
def smLoad (sd : Option SaveData) (s : EngineState) : EngineState :=
  match sd with
  | none => s
  | some d =>
      { s with
        xp := jsOrN d.xp 0,
        level := jsOrN d.level 1,
        unlockedAchievements := d.unlockedAchievements,
        volume := jsOrQ d.volume (1/2),
        sfxVolume := jsOrQ d.sfxVolume (7/10),
        darkTheme := d.darkTheme }

/-! ## switchHotbar / switchBiome (js/hackercraft-engine.js) -/

/-- The biome list used by `switchHotbar` and `switchBiome`. -/
def biomeList : List String := ["forest", "cave", "desert", "sky", "nether"]

/-- JavaScript `Array.prototype.indexOf`: index of the first occurrence,
or `-1` when absent. -/
def jsIndexOf (l : List String) (x : String) : ℤ :=
  match l.findIdx? (· = x) with
  | some i => (i : ℤ)
  | none => -1

mutual

/-- `HackercraftEngine.switchHotbar`.  Out-of-range indices return at
once.  In-range indices update the active slot, store the index, switch
to the corresponding biome when `index < biomes.length`, and play the
hover sound.  `switchBiome` calls back into `switchHotbar`, so the
mutual recursion carries explicit fuel; `none` models the stack
overflow the JS mutual recursion would produce. -/
def switchHotbar : ℕ → ℤ → EngineState → Option EngineState
  | 0, _, _ => none
  | fuel + 1, idx, s =>
      if idx < 0 ∨ idx > 8 then some s
      else
        let s1 := { s with hotbarIndex := idx }
        let r :=
          if idx < (biomeList.length : ℤ) then
            switchBiome fuel (biomeList.getD idx.toNat "") s1
          else
            some s1
        match r with
        | none => none
        | some s2 => some { s2 with sounds := s2.sounds ++ ["hover"] }

/-- `HackercraftEngine.switchBiome`: no-op off the game screen;
otherwise set the biome, re-enter `switchHotbar` at the biome's index,
and play the page-switch sound. -/
def switchBiome : ℕ → String → EngineState → Option EngineState
  | 0, _, _ => none
  | fuel + 1, biome, s =>
      if s.currentScreen ≠ "game" then some s
      else
        let s1 := { s with currentBiome := biome }
        match switchHotbar fuel (jsIndexOf biomeList biome) s1 with
        | none => none
        | some s2 => some { s2 with sounds := s2.sounds ++ ["page_switch"] }

end

/-! ## UIManager toast queue (js/hackercraft-engine.js) -/

/-- A toast request as built by `UIManager.showToast`
(`{ title, description, id: Date.now() }`). -/
structure UIToast where
  title : String
  descr : String
  id : ℕ
  deriving DecidableEq, Repr

/-- The `UIManager` toast state.  `container` mirrors the children of
the `#toastContainer` DOM node together with their CSS class
(`true` = class `showing`, `false` = class `hiding`); an element is on
screen (visible or dismissing) exactly while it is in `container`.
`shownLog` and `enqLog` are ghost histories of, respectively, the
toasts in display order and the toasts in enqueue order. -/
structure UIM where
  toastQueue : List UIToast
  isShowingToast : Bool
  container : List (UIToast × Bool)
  shownLog : List UIToast
  enqLog : List UIToast
  deriving DecidableEq, Repr

/-- The `UIManager` constructor state. -/
def uimInit : UIM :=
  { toastQueue := [], isShowingToast := false, container := [],
    shownLog := [], enqLog := [] }

/-- `UIManager.processToastQueue`: return if a toast is showing or the
queue is empty; otherwise set the single-flight flag, shift the head of
the queue and append its element to the container with class
`showing`. -/
def processToastQueue (s : UIM) : UIM :=
  if s.isShowingToast ∨ s.toastQueue.isEmpty then s
  else
    match s.toastQueue with
    | [] => s
    | t :: rest =>
        { s with
          toastQueue := rest, isShowingToast := true,
          container := s.container ++ [(t, true)],
          shownLog := s.shownLog ++ [t] }

/-- `UIManager.showToast`: push the request and run the queue
processor. -/
def showToast (t : UIToast) (s : UIM) : UIM :=
  processToastQueue
    { s with toastQueue := s.toastQueue ++ [t], enqLog := s.enqLog ++ [t] }

/-- The 3000 ms timer of the displayed element with id `i` firing: the
element swaps class `showing` for class `hiding`. -/
def dismissTimer (i : ℕ) (s : UIM) : UIM :=
  { s with container :=
      s.container.map (fun e => if e.1.id = i ∧ e.2 = true then (e.1, false) else e) }

/-- The chained 500 ms timer of the hiding element with id `i` firing:
`removeChild`, clear the single-flight flag, re-run the processor.  The
guard reflects that this timer only exists for an element that is still
in the container with class `hiding`. -/
def removeTimer (i : ℕ) (s : UIM) : UIM :=
  if s.container.any (fun e => e.1.id == i && !e.2) then
    processToastQueue
      { s with
        container := s.container.filter (fun e => !(e.1.id == i && !e.2)),
        isShowingToast := false }
  else s

/-- External events driving the `UIManager` toast machine: an
application call to `showToast`, or one of the two timer callbacks. -/
inductive UEv where
  | enq (t : UIToast)
  | dismiss (i : ℕ)
  | remove (i : ℕ)
  deriving DecidableEq, Repr

/-- One event step of the toast machine. -/
def uimStep (s : UIM) : UEv → UIM
  | .enq t => showToast t s
  | .dismiss i => dismissTimer i s
  | .remove i => removeTimer i s

/-- Run the toast machine from the constructor state. -/
def runUIM (evs : List UEv) : UIM := evs.foldl uimStep uimInit

/-- The machine invariant: at most one element on screen; the flag
tracks container occupancy; displayed history followed by the pending
queue is exactly the enqueue history (FIFO); an idle machine has an
empty queue. -/
def UIMInv (s : UIM) : Prop :=
  s.container.length ≤ 1 ∧
  (s.isShowingToast = true ↔ s.container ≠ []) ∧
  s.shownLog ++ s.toastQueue = s.enqLog ∧
  (s.isShowingToast = false → s.toastQueue = [])

theorem uimInv_init : UIMInv uimInit := by
  simp [UIMInv, uimInit]

theorem uimInv_process {s : UIM} (h1 : s.container.length ≤ 1)
    (h2 : s.isShowingToast = true ↔ s.container ≠ [])
    (h3 : s.shownLog ++ s.toastQueue = s.enqLog) :
    UIMInv (processToastQueue s) := by
  unfold processToastQueue
  by_cases hg : (s.isShowingToast : Prop) ∨ (s.toastQueue.isEmpty : Prop)
  · rw [if_pos hg]
    refine ⟨h1, h2, h3, fun hf => ?_⟩
    rcases hg with hg | hg
    · rw [hg] at hf; cases hf
    · exact List.isEmpty_iff.mp hg
  · push_neg at hg
    obtain ⟨hshow, hne⟩ := hg
    rw [if_neg (by simp only [not_or]; exact ⟨hshow, hne⟩)]
    have hcont : s.container = [] := by
      by_contra hc
      exact hshow (h2.mpr hc)
    cases hq : s.toastQueue with
    | nil => rw [hq] at hne; simp at hne
    | cons t rest =>
        refine ⟨?_, ?_, ?_, ?_⟩
        · simp [hcont]
        · simp
        · show s.shownLog ++ [t] ++ rest = s.enqLog
          rw [← h3, hq]
          simp
        · simp

theorem uimInv_showToast {s : UIM} (t : UIToast) (h : UIMInv s) :
    UIMInv (showToast t s) := by
  obtain ⟨h1, h2, h3, _⟩ := h
  refine uimInv_process h1 h2 ?_
  show s.shownLog ++ (s.toastQueue ++ [t]) = s.enqLog ++ [t]
  rw [← List.append_assoc, h3]

theorem uimInv_dismiss {s : UIM} (i : ℕ) (h : UIMInv s) :
    UIMInv (dismissTimer i s) := by
  obtain ⟨h1, h2, h3, h4⟩ := h
  unfold dismissTimer
  refine ⟨by simpa using h1, ?_, h3, h4⟩
  rw [h2]
  constructor
  · intro hc hm
    exact hc (by simpa using List.map_eq_nil_iff.mp hm)
  · intro hc hm
    exact hc (by rw [hm]; simp)

theorem uimInv_remove {s : UIM} (i : ℕ) (h : UIMInv s) :
    UIMInv (removeTimer i s) := by
  obtain ⟨h1, h2, h3, h4⟩ := h
  unfold removeTimer
  by_cases hg : (s.container.any (fun e => e.1.id == i && !e.2) : Prop)
  · rw [if_pos hg]
    have hfilter : s.container.filter (fun e => !(e.1.id == i && !e.2)) = [] := by
      cases hc : s.container with
      | nil => simp
      | cons e rest =>
          cases rest with
          | nil =>
              have he : e.1.id = i ∧ e.2 = false := by
                rw [hc] at hg; simpa using hg
              simp [he.1, he.2]
          | cons e2 rest2 => rw [hc] at h1; simp at h1
    exact uimInv_process (le_trans (List.length_filter_le _ _) h1)
      (iff_of_false (by simp) (not_not_intro hfilter)) h3
  · rw [if_neg hg]
    exact ⟨h1, h2, h3, h4⟩

theorem uimInv_step {s : UIM} (e : UEv) (h : UIMInv s) : UIMInv (uimStep s e) := by
  cases e with
  | enq t => exact uimInv_showToast t h
  | dismiss i => exact uimInv_dismiss i h
  | remove i => exact uimInv_remove i h

theorem uimInv_run_aux : ∀ (evs : List UEv) (s : UIM), UIMInv s →
    UIMInv (evs.foldl uimStep s)
  | [], _, h => h
  | e :: evs, s, h => uimInv_run_aux evs (uimStep s e) (uimInv_step e h)

theorem uimInv_run (evs : List UEv) : UIMInv (runUIM evs) :=
  uimInv_run_aux evs uimInit uimInv_init

/-! ## Module-version toast stack (`setupToastStack` / `createToast`) -/

/-- The state of the module version's `#toastWrap` node: `createToast`
prepends a node which is displayed immediately; each node is removed by
its own timer after its display duration.  There is no queue and no
single-flight flag. -/
structure ToastStack where
  nodes : List (String × String)
  deriving DecidableEq, Repr

/-- The empty toast wrap. -/
def toastStackInit : ToastStack := { nodes := [] }

/-- `window.createToast(title, msg)`: `wrap.prepend(node)` — the toast
is on screen from this moment; its removal timer (after
`opts.duration || 4200` ms plus the exit animation) is a separate
event. -/
def createToast (title msg : String) (s : ToastStack) : ToastStack :=
  { nodes := (title, msg) :: s.nodes }

/-! ## Timed model of the UIManager toast presentation (claim C7)

The untimed machine above captures ordering; the timed machine below
captures the timer constants of `processToastQueue`: the gsap entrance
animation runs for 500 ms (`duration: 0.5`), its `onComplete` starts a
3000 ms `setTimeout` that swaps class `showing` for `hiding`, and a
chained 500 ms `setTimeout` removes the element and re-runs the
processor.  A toast is in the *visible* state from the moment its
entrance animation completes. -/

/-- Phase of the currently presented toast element: entrance animation
running, fully visible, or exit animation (class `hiding`) running. -/
inductive TPhase where
  | entering
  | shown
  | dismissing
  deriving DecidableEq, Repr

/-- Entrance animation length in ms (gsap `duration: 0.5`). -/
def toastEnterMs : ℕ := 500

/-- Display interval in ms (`setTimeout(..., 3000)`). -/
def toastShowMs : ℕ := 3000

/-- Exit animation length in ms (`setTimeout(..., 500)`). -/
def toastExitMs : ℕ := 500

/-- Timed toast machine state: wall-clock time in ms, the pending FIFO
queue, the current element with its phase and the absolute deadline of
that phase, and the ghost log of the instants at which successive
toasts became fully visible. -/
structure TQ where
  now : ℕ
  queue : List UIToast
  cur : Option (UIToast × TPhase × ℕ)
  visLog : List ℕ
  deriving DecidableEq, Repr

/-- The timed machine's initial state. -/
def tqInit : TQ := { now := 0, queue := [], cur := none, visLog := [] }

/-- `processToastQueue` at the current instant: when idle and the queue
is non-empty, shift the head and start its entrance animation. -/
def tqProcess (s : TQ) : TQ :=
  match s.cur, s.queue with
  | none, t :: rest =>
      { s with queue := rest, cur := some (t, TPhase.entering, s.now + toastEnterMs) }
  | _, _ => s

/-- Events of the timed machine: an application `showToast` call at the
current instant, the passage of `d` ms of idle time (which never
overruns a pending timer deadline), and the firing of the next pending
timer/animation callback at its deadline. -/
inductive TEv where
  | enq (t : UIToast)
  | wait (d : ℕ)
  | fireNext
  deriving DecidableEq, Repr

/-- One event step of the timed machine. -/
def tqStep (s : TQ) : TEv → TQ
  | .enq t => tqProcess { s with queue := s.queue ++ [t] }
  | .wait d =>
      { s with now :=
          match s.cur with
          | some (_, _, dl) => min (s.now + d) dl
          | none => s.now + d }
  | .fireNext =>
      match s.cur with
      | some (t, TPhase.entering, dl) =>
          { s with
            now := dl,
            cur := some (t, TPhase.shown, dl + toastShowMs),
            visLog := s.visLog ++ [dl] }
      | some (t, TPhase.shown, dl) =>
          { s with now := dl, cur := some (t, TPhase.dismissing, dl + toastExitMs) }
      | some (_, TPhase.dismissing, dl) =>
          tqProcess { s with now := dl, cur := none }
      | none => s

/-- Run the timed machine from its initial state. -/
def runTQ (evs : List TEv) : TQ := evs.foldl tqStep tqInit

/-- The instant the most recent toast became fully visible. -/
def lastVis (s : TQ) : ℕ := (s.visLog.getLast?).getD 0

/-- Invariant of the timed machine: successive visibility instants are
at least 3500 ms apart; phase deadlines are anchored to the visibility
instants (shown ends at `lastVis + 3000`, hiding at `lastVis + 3500`);
time never overruns a pending deadline; after a removal at least
3500 ms separate the last visibility instant from the current time,
and a fresh entrance completes no earlier than 4000 ms after it. -/
def TQInv (s : TQ) : Prop :=
  List.Chain' (fun a b => a + (toastShowMs + toastExitMs) ≤ b) s.visLog ∧
  (∀ t dl, s.cur = some (t, TPhase.entering, dl) →
    s.now ≤ dl ∧ (s.visLog = [] ∨ lastVis s + 4000 ≤ dl)) ∧
  (∀ t dl, s.cur = some (t, TPhase.shown, dl) →
    s.now ≤ dl ∧ s.visLog ≠ [] ∧ dl = lastVis s + toastShowMs) ∧
  (∀ t dl, s.cur = some (t, TPhase.dismissing, dl) →
    s.now ≤ dl ∧ s.visLog ≠ [] ∧ dl = lastVis s + toastShowMs + toastExitMs) ∧
  (s.cur = none → (s.visLog = [] ∨ lastVis s + (toastShowMs + toastExitMs) ≤ s.now))

theorem tqInv_init : TQInv tqInit := by
  refine ⟨by simp [tqInit], ?_, ?_, ?_, ?_⟩ <;> simp [tqInit]

theorem tqStep_enq {s : TQ} (t : UIToast) :
    tqStep s (.enq t) = tqProcess { s with queue := s.queue ++ [t] } := rfl

theorem tqStep_wait_none {s : TQ} {d : ℕ} (hc : s.cur = none) :
    tqStep s (.wait d) = { s with now := s.now + d } := by
  simp [tqStep, hc]

theorem tqStep_wait_some {s : TQ} {d : ℕ} {t : UIToast} {ph : TPhase} {dl : ℕ}
    (hc : s.cur = some (t, ph, dl)) :
    tqStep s (.wait d) = { s with now := min (s.now + d) dl } := by
  simp [tqStep, hc]

theorem tqStep_fire_none {s : TQ} (hc : s.cur = none) : tqStep s .fireNext = s := by
  simp [tqStep, hc]

theorem tqStep_fire_entering {s : TQ} {t : UIToast} {dl : ℕ}
    (hc : s.cur = some (t, TPhase.entering, dl)) :
    tqStep s .fireNext =
      { s with
        now := dl,
        cur := some (t, TPhase.shown, dl + toastShowMs),
        visLog := s.visLog ++ [dl] } := by
  simp [tqStep, hc]

theorem tqStep_fire_shown {s : TQ} {t : UIToast} {dl : ℕ}
    (hc : s.cur = some (t, TPhase.shown, dl)) :
    tqStep s .fireNext =
      { s with now := dl, cur := some (t, TPhase.dismissing, dl + toastExitMs) } := by
  simp [tqStep, hc]

theorem tqStep_fire_dismissing {s : TQ} {t : UIToast} {dl : ℕ}
    (hc : s.cur = some (t, TPhase.dismissing, dl)) :
    tqStep s .fireNext = tqProcess { s with now := dl, cur := none } := by
  simp [tqStep, hc]

theorem tqInv_process {s : TQ} (h : TQInv s) : TQInv (tqProcess s) := by
  obtain ⟨hch, hent, hsh, hdis, hidle⟩ := h
  unfold tqProcess
  split
  next t rest hcur hq =>
    refine ⟨by simpa using hch, ?_, ?_, ?_, ?_⟩
    · intro t' dl h'
      simp only [Option.some.injEq, Prod.mk.injEq, true_and] at h'
      obtain ⟨-, rfl⟩ := h'
      constructor
      · show s.now ≤ s.now + toastEnterMs
        omega
      · rcases hidle hcur with hnil | hle
        · exact Or.inl (by simpa [lastVis] using hnil)
        · refine Or.inr ?_
          simp only [lastVis, toastShowMs, toastExitMs, toastEnterMs] at hle ⊢
          omega
    · intro t' dl h'; simp at h'
    · intro t' dl h'; simp at h'
    · intro h'; simp at h'
  next hfall =>
    exact ⟨hch, hent, hsh, hdis, hidle⟩

theorem tqInv_step {s : TQ} (e : TEv) (h : TQInv s) : TQInv (tqStep s e) := by
  obtain ⟨hch, hent, hsh, hdis, hidle⟩ := h
  cases e with
  | enq t =>
      rw [tqStep_enq]
      exact tqInv_process ⟨hch, fun t' dl h' => hent t' dl h',
        fun t' dl h' => hsh t' dl h', fun t' dl h' => hdis t' dl h',
        fun h' => hidle h'⟩
  | wait d =>
      cases hcur : s.cur with
      | none =>
          rw [tqStep_wait_none hcur]
          refine ⟨hch, ?_, ?_, ?_, ?_⟩
          · intro t' dl h'
            rw [show ({ s with now := s.now + d } : TQ).cur = s.cur from rfl, hcur] at h'
            cases h'
          · intro t' dl h'
            rw [show ({ s with now := s.now + d } : TQ).cur = s.cur from rfl, hcur] at h'
            cases h'
          · intro t' dl h'
            rw [show ({ s with now := s.now + d } : TQ).cur = s.cur from rfl, hcur] at h'
            cases h'
          · intro _
            rcases hidle hcur with hnil | hle
            · exact Or.inl (by simpa [lastVis] using hnil)
            · refine Or.inr ?_
              simp only [lastVis] at hle ⊢
              omega
      | some c =>
          obtain ⟨t, ph, dl⟩ := c
          rw [tqStep_wait_some hcur]
          refine ⟨hch, ?_, ?_, ?_, ?_⟩
          · intro t' dl' h'
            have h'' : s.cur = some (t', TPhase.entering, dl') := h'
            obtain ⟨h1, h2⟩ := hent t' dl' h''
            have hdl : dl' = dl := by
              rw [hcur] at h''
              simp only [Option.some.injEq, Prod.mk.injEq] at h''
              exact h''.2.2.symm
            refine ⟨?_, by simpa [lastVis] using h2⟩
            show min (s.now + d) dl ≤ dl'
            rw [hdl]
            exact min_le_right _ _
          · intro t' dl' h'
            have h'' : s.cur = some (t', TPhase.shown, dl') := h'
            obtain ⟨h1, h2, h3⟩ := hsh t' dl' h''
            have hdl : dl' = dl := by
              rw [hcur] at h''
              simp only [Option.some.injEq, Prod.mk.injEq] at h''
              exact h''.2.2.symm
            refine ⟨?_, by simpa [lastVis] using h2, by simpa [lastVis] using h3⟩
            show min (s.now + d) dl ≤ dl'
            rw [hdl]
            exact min_le_right _ _
          · intro t' dl' h'
            have h'' : s.cur = some (t', TPhase.dismissing, dl') := h'
            obtain ⟨h1, h2, h3⟩ := hdis t' dl' h''
            have hdl : dl' = dl := by
              rw [hcur] at h''
              simp only [Option.some.injEq, Prod.mk.injEq] at h''
              exact h''.2.2.symm
            refine ⟨?_, by simpa [lastVis] using h2, by simpa [lastVis] using h3⟩
            show min (s.now + d) dl ≤ dl'
            rw [hdl]
            exact min_le_right _ _
          · intro h'
            rw [show ({ s with now := min (s.now + d) dl } : TQ).cur = s.cur from rfl,
              hcur] at h'
            cases h'
  | fireNext =>
      cases hcur : s.cur with
      | none => rw [tqStep_fire_none hcur]; exact ⟨hch, hent, hsh, hdis, hidle⟩
      | some c =>
          obtain ⟨t, ph, dl⟩ := c
          cases ph with
          | entering =>
              obtain ⟨h1, h2⟩ := hent t dl hcur
              rw [tqStep_fire_entering hcur]
              refine ⟨?_, ?_, ?_, ?_, ?_⟩
              · show List.Chain' _ (s.visLog ++ [dl])
                rw [List.chain'_append]
                refine ⟨hch, by simp, ?_⟩
                intro x hx y hy
                simp only [List.head?_cons, Option.mem_def, Option.some.injEq] at hy
                subst hy
                rcases h2 with hnil | hle
                · rw [hnil] at hx; simp at hx
                · simp only [Option.mem_def] at hx
                  have hxl : lastVis s = x := by simp [lastVis, hx]
                  rw [← hxl]
                  simp only [toastShowMs, toastExitMs] at *
                  omega
              · intro t' dl' h'; simp at h'
              · intro t' dl' h'
                simp only [Option.some.injEq, Prod.mk.injEq, true_and] at h'
                obtain ⟨-, rfl⟩ := h'
                refine ⟨Nat.le_add_right _ _, by simp, ?_⟩
                show dl + toastShowMs = lastVis _ + toastShowMs
                have : lastVis { s with
                    now := dl,
                    cur := some (t, TPhase.shown, dl + toastShowMs),
                    visLog := s.visLog ++ [dl] } = dl := by
                  simp [lastVis]
                rw [this]
              · intro t' dl' h'; simp at h'
              · intro h'; simp at h'
          | shown =>
              obtain ⟨h1, h2, h3⟩ := hsh t dl hcur
              rw [tqStep_fire_shown hcur]
              refine ⟨hch, ?_, ?_, ?_, ?_⟩
              · intro t' dl' h'; simp at h'
              · intro t' dl' h'; simp at h'
              · intro t' dl' h'
                simp only [Option.some.injEq, Prod.mk.injEq, true_and] at h'
                obtain ⟨-, rfl⟩ := h'
                refine ⟨Nat.le_add_right _ _, by simpa [lastVis] using h2, ?_⟩
                show dl + toastExitMs = lastVis _ + toastShowMs + toastExitMs
                simp only [lastVis] at h3 ⊢
                omega
              · intro h'; simp at h'
          | dismissing =>
              obtain ⟨h1, h2, h3⟩ := hdis t dl hcur
              rw [tqStep_fire_dismissing hcur]
              refine tqInv_process ⟨hch, ?_, ?_, ?_, ?_⟩
              · intro t' dl' h'; simp at h'
              · intro t' dl' h'; simp at h'
              · intro t' dl' h'; simp at h'
              · intro _
                refine Or.inr ?_
                show lastVis _ + (toastShowMs + toastExitMs) ≤ dl
                simp only [lastVis] at h3 ⊢
                omega

theorem tqInv_run_aux : ∀ (evs : List TEv) (s : TQ), TQInv s →
    TQInv (evs.foldl tqStep s)
  | [], _, h => h
  | e :: evs, s, h => tqInv_run_aux evs (tqStep s e) (tqInv_step e h)

theorem tqInv_run (evs : List TEv) : TQInv (runTQ evs) :=
  tqInv_run_aux evs tqInit tqInv_init

/-! ## Parkour physics loop (`setupParkour` in the module source)

JS doubles are modelled as exact rationals.  The arena is modelled with
the source's fallback dimensions (`clientWidth || 700`,
`clientHeight || 320`); platform positions are computed from them as in
the source.  The per-frame elapsed time is normalized as
`min(32, now - last) / 16.666` before use. -/

/-- A static platform `{ x, y, w, h }`. -/
structure Plat where
  x : ℚ
  y : ℚ
  w : ℚ
  h : ℚ
  deriving DecidableEq, Repr

/-- The parkour body (`player` object in `setupParkour`). -/
structure Player where
  x : ℚ
  y : ℚ
  vx : ℚ
  vy : ℚ
  w : ℚ
  h : ℚ
  onGround : Bool
  speed : ℚ
  jumpStrength : ℚ
  deriving DecidableEq, Repr

/-- Arena width (`arena.clientWidth || 700`). -/
def arenaW : ℚ := 700

/-- Arena height (`arena.clientHeight || 320`). -/
def arenaH : ℚ := 320

/-- The level layout built by `setupParkour` (positions relative to
`h = 320`). -/
def parkourPlatforms : List Plat :=
  [ { x := 10, y := arenaH - 28, w := 120, h := 20 },
    { x := 170, y := arenaH - 90, w := 90, h := 18 },
    { x := 300, y := arenaH - 140, w := 140, h := 20 },
    { x := 500, y := arenaH - 200, w := 100, h := 18 },
    { x := 660, y := arenaH - 260, w := 80, h := 18 } ]

/-- The initial body: `{ x: 20, y: h - 48, vx: 0, vy: 0, w: 20, h: 20,
onGround: false, speed: 2.9, jumpStrength: 7.2 }`. -/
def playerInit : Player :=
  { x := 20, y := arenaH - 48, vx := 0, vy := 0, w := 20, h := 20,
    onGround := false, speed := 29/10, jumpStrength := 36/5 }

/-- Per-tick control intents read from the shared key map
(`a`/`arrowleft`, `d`/`arrowright`, `w`/`arrowup`/space). -/
structure Input where
  left : Bool
  right : Bool
  up : Bool
  deriving DecidableEq, Repr

/-- No key held. -/
def noInput : Input := { left := false, right := false, up := false }

/-- Holding only the right-arrow key. -/
def rightInput : Input := { left := false, right := true, up := false }

/-- The full simulation state of one `setupParkour` run: the body, the
shared module `state.xp` (initially 60), the `running` flag of the
animation-frame loop, the module achievement set, ghost logs of
`createToast` calls and `SoundManager.play` calls, and a ghost tick
counter. -/
structure ParkourState where
  player : Player
  xp : ℚ
  running : Bool
  achievements : List String
  toasts : List (String × String)
  sounds : List String
  tickCount : ℕ
  deriving DecidableEq, Repr

/-- The state right after `setupParkour` returns. -/
def parkourInit : ParkourState :=
  { player := playerInit, xp := 60, running := true, achievements := [],
    toasts := [], sounds := [], tickCount := 0 }

/-- `dt = Math.min(32, elapsed) / 16.666`. -/
def dtOf (elapsed : ℚ) : ℚ := min 32 elapsed / (16666/1000)

/-- The largest normalized time step (elapsed clamped at 32 ms). -/
def dtMax : ℚ := 32 / (16666/1000)

/-- Movement phase of one `step(now)` call: set `vx` from the intents,
apply gravity (`vy += 0.45 * dt`), jump when the up intent is active
and the body is grounded (`vy = -jumpStrength`, `onGround = false`,
click sound), then integrate (`x += vx * dt * 6; y += vy * dt`). -/
def movePhase (inp : Input) (dt : ℚ) (s : ParkourState) : ParkourState :=
  let p := s.player
  let vx : ℚ := if inp.left then -p.speed else if inp.right then p.speed else 0
  let vy : ℚ := p.vy + 9/20 * dt
  let jump := inp.up && p.onGround
  let vy : ℚ := if jump then -p.jumpStrength else vy
  let onGround := if jump then false else p.onGround
  let sounds := if jump then s.sounds ++ ["click"] else s.sounds
  { s with
    player :=
      { p with
        vx := vx, vy := vy, onGround := onGround,
        x := p.x + vx * dt * 6,
        y := p.y + vy * dt },
    sounds := sounds }

/-- One platform check of the collision pass, exactly as nested in the
source: horizontal overlap outside, surface band and downward motion
inside; a hit snaps the bottom edge to the surface, zeroes `vy` and
grounds the body. -/
def collideOne (p : Player) (pl : Plat) : Player :=
  if p.x + p.w > pl.x ∧ p.x < pl.x + pl.w then
    if p.y + p.h ≥ pl.y ∧ p.y + p.h < pl.y + 16 ∧ p.vy ≥ 0 then
      { p with y := pl.y - p.h, vy := 0, onGround := true }
    else p
  else p

/-- The collision pass: `player.onGround = false`, then
`platforms.forEach(...)` in order. -/
def collidePhase (s : ParkourState) : ParkourState :=
  { s with player := parkourPlatforms.foldl collideOne { s.player with onGround := false } }

/-- Arena bound clamping: raise `x` to `0`, then cap `x + w` at
`clientWidth - 6`. -/
def clampPhase (s : ParkourState) : ParkourState :=
  let p := s.player
  let x1 : ℚ := if p.x < 0 then 0 else p.x
  let x2 : ℚ := if x1 + p.w > arenaW - 6 then arenaW - p.w - 6 else x1
  { s with player := { p with x := x2 } }

/-- Fall-through check: `player.y > arena.clientHeight` resets the body
to the spawn point (`x = 20`, `y = h - 48`), zeroes the *vertical*
velocity, emits the fall toast and plays the page sound. -/
def fallPhase (s : ParkourState) : ParkourState :=
  if s.player.y > arenaH then
    { s with
      player := { s.player with x := 20, y := arenaH - 48, vy := 0 },
      toasts := s.toasts ++ [("Parkour", "You fell. Resetting run...")],
      sounds := s.sounds ++ ["page"] }
  else s

/-- `awardAchievement(id, title, msg)`: first unlock adds the id,
emits a toast and plays the achievement sound; repeats return early. -/
def awardAchievement (id title msg : String) (s : ParkourState) : ParkourState :=
  if id ∈ s.achievements then s
  else
    { s with
      achievements := id :: s.achievements,
      toasts := s.toasts ++ [(title, msg)],
      sounds := s.sounds ++ ["achievement"] }

/-- Victory check: `player.x > clientWidth - 120` emits the completion
toast, plays the xp sound, clamps the module XP
(`state.xp = Math.min(100, state.xp + 15)`), awards the
`parkour-complete` achievement and clears `running`. -/
def winPhase (s : ParkourState) : ParkourState :=
  if s.player.x > arenaW - 120 then
    awardAchievement "parkour-complete" "Parkour Master" "Completed a parkour run."
      { s with
        toasts := s.toasts ++ [("Parkour Complete", "You reached the end — +15 XP")],
        sounds := s.sounds ++ ["xp"],
        xp := min 100 (s.xp + 15),
        running := false }
  else s

/-- The state inspected by the fall-through check: movement, collision
pass and bound clamping applied. -/
def preFall (inp : Input) (dt : ℚ) (s : ParkourState) : ParkourState :=
  clampPhase (collidePhase (movePhase inp dt s))

/-- The state inspected by the victory check. -/
def preWin (inp : Input) (dt : ℚ) (s : ParkourState) : ParkourState :=
  fallPhase (preFall inp dt s)

/-- One full `step(now)` call with normalized time step `dt`; the
ghost tick counter records that the body ran. -/
def step (inp : Input) (dt : ℚ) (s : ParkourState) : ParkourState :=
  let s' := winPhase (preWin inp dt s)
  { s' with tickCount := s'.tickCount + 1 }

/-- The `requestAnimationFrame` recursion: each scheduled tick runs the
step; a new tick is scheduled only while `running` holds (models
`if (running) requestAnimationFrame(step)`). -/
def runLoop : List (Input × ℚ) → ParkourState → ParkourState
  | [], s => s
  | e :: evs, s => if s.running then runLoop evs (step e.1 e.2 s) else s

/-- Number of "Parkour Complete" toasts emitted so far. -/
def completedCount (s : ParkourState) : ℕ :=
  s.toasts.countP (fun t => t.1 == "Parkour Complete")

/-- Number of fall toasts emitted so far. -/
def fellCount (s : ParkourState) : ℕ :=
  s.toasts.countP (fun t => t == ("Parkour", "You fell. Resetting run..."))

/-- Number of page-switch sounds played so far (the fall sound cue). -/
def pageSoundCount (s : ParkourState) : ℕ :=
  s.sounds.countP (fun n => n == "page")

/-- The handle returned by `setupParkour` together with its scheduling
environment: the simulation state (whose `running` field is the
closure's `running` variable), whether an animation-frame callback is
pending, and whether the two key listeners are attached. -/
structure Handle where
  sim : ParkourState
  pending : Bool
  keydownSub : Bool
  keyupSub : Bool
  deriving DecidableEq, Repr

/-- `setupParkour` ends with `requestAnimationFrame(step)` and both
listeners attached. -/
def handleInit : Handle :=
  { sim := parkourInit, pending := true, keydownSub := true, keyupSub := true }

/-- The browser firing the pending animation frame: the step body runs
unconditionally, and a new frame is scheduled exactly when `running`
still holds at the end of the body. -/
def fireFrame (inp : Input) (dt : ℚ) (h : Handle) : Handle :=
  if h.pending then
    let s := step inp dt h.sim
    { h with sim := s, pending := s.running }
  else h

/-- `handle.destroy()`: clear `running` and remove both key listeners.
The already-scheduled animation frame, if any, is *not* cancelled. -/
def destroy (h : Handle) : Handle :=
  { h with
    sim := { h.sim with running := false },
    keydownSub := false, keyupSub := false }

/-- A sequence of animation-frame firings. -/
def runFrames : List (Input × ℚ) → Handle → Handle
  | [], h => h
  | e :: evs, h => runFrames evs (fireFrame e.1 e.2 h)

/-! ### Frame-local transport lemmas for the parkour phases -/

theorem fallPhase_meta (s : ParkourState) :
    (fallPhase s).xp = s.xp ∧ (fallPhase s).running = s.running ∧
    (fallPhase s).achievements = s.achievements := by
  unfold fallPhase; split <;> exact ⟨rfl, rfl, rfl⟩

theorem awardAchievement_meta (id title msg : String) (s : ParkourState) :
    (awardAchievement id title msg s).running = s.running ∧
    (awardAchievement id title msg s).player = s.player ∧
    (awardAchievement id title msg s).xp = s.xp := by
  unfold awardAchievement; split <;> exact ⟨rfl, rfl, rfl⟩

theorem winPhase_player (s : ParkourState) : (winPhase s).player = s.player := by
  unfold winPhase
  split
  · exact (awardAchievement_meta _ _ _ _).2.1
  · rfl

theorem winPhase_running_false {s : ParkourState} (h : s.running = false) :
    (winPhase s).running = false := by
  unfold winPhase
  split
  · exact (awardAchievement_meta _ _ _ _).1
  · exact h

theorem preWin_running (inp : Input) (dt : ℚ) (s : ParkourState) :
    (preWin inp dt s).running = s.running := by
  unfold preWin preFall
  exact (fallPhase_meta _).2.1

theorem preWin_xp (inp : Input) (dt : ℚ) (s : ParkourState) :
    (preWin inp dt s).xp = s.xp := by
  unfold preWin preFall
  exact (fallPhase_meta _).1

theorem preWin_achievements (inp : Input) (dt : ℚ) (s : ParkourState) :
    (preWin inp dt s).achievements = s.achievements := by
  unfold preWin preFall
  exact (fallPhase_meta _).2.2

theorem step_running_false {s : ParkourState} (inp : Input) (dt : ℚ)
    (h : s.running = false) : (step inp dt s).running = false := by
  show (winPhase (preWin inp dt s)).running = false
  exact winPhase_running_false ((preWin_running inp dt s).trans h)

theorem step_tickCount (inp : Input) (dt : ℚ) (s : ParkourState) :
    (step inp dt s).tickCount = (winPhase (preWin inp dt s)).tickCount + 1 := rfl

theorem winPhase_tickCount (s : ParkourState) :
    (winPhase s).tickCount = s.tickCount := by
  unfold winPhase awardAchievement
  split
  · split <;> rfl
  · rfl

theorem preWin_tickCount (inp : Input) (dt : ℚ) (s : ParkourState) :
    (preWin inp dt s).tickCount = s.tickCount := by
  unfold preWin preFall fallPhase
  split <;> rfl

theorem step_tick_succ (inp : Input) (dt : ℚ) (s : ParkourState) :
    (step inp dt s).tickCount = s.tickCount + 1 := by
  rw [step_tickCount, winPhase_tickCount, preWin_tickCount]

/-! ### Collision pass analysis -/

/-- Horizontal overlap between the body and a platform (depends only on
`x` and `w`). -/
def hOverlap (p : Player) (pl : Plat) : Prop :=
  p.x + p.w > pl.x ∧ p.x < pl.x + pl.w

/-- The snapped state produced by a collision hit. -/
def snapTo (p : Player) (pl : Plat) : Player :=
  { p with y := pl.y - p.h, vy := 0, onGround := true }

theorem collideOne_of_not_overlap {p : Player} {pl : Plat}
    (h : ¬ hOverlap p pl) : collideOne p pl = p := by
  unfold collideOne
  rw [if_neg (show ¬(p.x + p.w > pl.x ∧ p.x < pl.x + pl.w) from h)]

theorem collideOne_of_hit {p : Player} {pl : Plat} (ho : hOverlap p pl)
    (hband : pl.y ≤ p.y + p.h ∧ p.y + p.h < pl.y + 16) (hvy : 0 ≤ p.vy) :
    collideOne p pl = snapTo p pl := by
  unfold collideOne
  rw [if_pos (show p.x + p.w > pl.x ∧ p.x < pl.x + pl.w from ho),
    if_pos (show p.y + p.h ≥ pl.y ∧ p.y + p.h < pl.y + 16 ∧ p.vy ≥ 0 from
      ⟨hband.1, hband.2, hvy⟩)]
  rfl

theorem collideOne_up {p : Player} (pl : Plat) (h : p.vy < 0) :
    collideOne p pl = p := by
  unfold collideOne
  split
  · rw [if_neg]
    intro hc
    exact absurd hc.2.2 (not_le.mpr h)
  · rfl

theorem collideOne_x (p : Player) (pl : Plat) : (collideOne p pl).x = p.x := by
  unfold collideOne; split <;> [skip; rfl]
  split <;> rfl

theorem collideOne_w (p : Player) (pl : Plat) : (collideOne p pl).w = p.w := by
  unfold collideOne; split <;> [skip; rfl]
  split <;> rfl

theorem foldl_collideOne_up :
    ∀ (L : List Plat) (q : Player), q.vy < 0 → L.foldl collideOne q = q
  | [], _, _ => rfl
  | pl :: L, q, h => by
      rw [List.foldl_cons, collideOne_up pl h]
      exact foldl_collideOne_up L q h

theorem snapTo_absorb {p : Player} {pl : Plat} (ho : hOverlap p pl) :
    collideOne (snapTo p pl) pl = snapTo p pl := by
  have ho' : hOverlap (snapTo p pl) pl := ho
  have hcancel : pl.y - p.h + p.h = pl.y := by ring
  have hband : pl.y ≤ (snapTo p pl).y + (snapTo p pl).h ∧
      (snapTo p pl).y + (snapTo p pl).h < pl.y + 16 := by
    constructor
    · show pl.y ≤ pl.y - p.h + p.h
      rw [hcancel]
    · show pl.y - p.h + p.h < pl.y + 16
      rw [hcancel]
      linarith
  rw [collideOne_of_hit ho' hband (le_refl 0)]
  rfl

theorem foldl_collideOne_absorbed :
    ∀ (L : List Plat) (q : Player), (∀ pl ∈ L, collideOne q pl = q) →
      L.foldl collideOne q = q
  | [], _, _ => rfl
  | pl :: L, q, h => by
      rw [List.foldl_cons, h pl (List.mem_cons_self pl L)]
      exact foldl_collideOne_absorbed L q
        (fun pl' hm => h pl' (List.mem_cons_of_mem pl hm))

/-- Folding the collision pass over a layout in which exactly one
platform horizontally overlaps the body snaps the body onto that
platform (regardless of where it sits in the iteration order). -/
theorem foldl_collideOne_unique :
    ∀ (L : List Plat) (q : Player) (pl : Plat), pl ∈ L →
      (∀ pl' ∈ L, hOverlap q pl' → pl' = pl) →
      hOverlap q pl →
      pl.y ≤ q.y + q.h → q.y + q.h < pl.y + 16 → 0 ≤ q.vy →
      L.foldl collideOne q = snapTo q pl := by
  intro L
  induction L with
  | nil => intro q pl hm; cases hm
  | cons a L ih =>
      intro q pl hm huniq ho hb1 hb2 hvy
      by_cases ha : a = pl
      · subst ha
        rw [List.foldl_cons, collideOne_of_hit ho ⟨hb1, hb2⟩ hvy]
        refine foldl_collideOne_absorbed L (snapTo q a) ?_
        intro pl' hm'
        by_cases hpl' : pl' = a
        · subst hpl'
          exact snapTo_absorb ho
        · refine collideOne_of_not_overlap ?_
          intro hov
          exact hpl'
            (huniq pl' (List.mem_cons_of_mem a hm') (by exact hov))
      · have hmem : pl ∈ L := by
          rcases List.mem_cons.mp hm with h | h
          · exact absurd h.symm ha
          · exact h
        have hna : ¬ hOverlap q a := by
          intro hov
          exact ha (huniq a (List.mem_cons_self a L) hov)
        rw [List.foldl_cons, collideOne_of_not_overlap hna]
        exact ih q pl hmem
          (fun pl' hm' hov => huniq pl' (List.mem_cons_of_mem a hm') hov)
          ho hb1 hb2 hvy

/-! ## Claim theorems -/

/-- C10: for every non-negative XP amount, `addXP` leaves the
progression state with `0 ≤ xp < xpToNext` (the lower bound is inherent
to ℕ); the carry loop performs some number `k` of iterations, each of
which increments the level by exactly one, subtracts the old threshold
from the XP and replaces the threshold by `floor(1.5 * old)`
(`thrIter`); the sum of the consumed thresholds (`thrSum`) balances the
books, so total XP is conserved across level-ups. -/
theorem C10_addXP_invariant (s : EngineState) (amount : ℕ)
    (ht : 1 ≤ s.xpToNext) :
    (∃ k, (addXP amount s).level = s.level + k ∧
      (addXP amount s).xpToNext = thrIter s.xpToNext k ∧
      (addXP amount s).xp + thrSum s.xpToNext k = s.xp + amount ∧
      (addXP amount s).xp < (addXP amount s).xpToNext) ∧
    (∀ x t l, 1 ≤ t → t ≤ x →
      levelLoop x t l = levelLoop (x - t) (xpGrow t) (l + 1)) := by
  constructor
  · obtain ⟨k, hk, hle, hlt⟩ := levelLoop_spec (s.xp + amount) s.xpToNext s.level ht
    refine ⟨k, ?_, ?_, ?_, ?_⟩
    · show (levelLoop (s.xp + amount) s.xpToNext s.level).2.2 = s.level + k
      rw [hk]
    · show (levelLoop (s.xp + amount) s.xpToNext s.level).2.1 = _
      rw [hk]
    · show (levelLoop (s.xp + amount) s.xpToNext s.level).1 + _ = _
      rw [hk]
      show s.xp + amount - thrSum s.xpToNext k + thrSum s.xpToNext k = _
      omega
    · show (levelLoop (s.xp + amount) s.xpToNext s.level).1 <
        (levelLoop (s.xp + amount) s.xpToNext s.level).2.1
      rw [hk]
      exact hlt
  · intro x t l h1 h2
    conv_lhs => rw [levelLoop]
    rw [dif_pos ⟨h1, h2⟩]

/-- C10 witness: the carry-loop invariant at the engine's initial state
(threshold 100) with a 160-point award: one level-up, 60 XP left below
the grown threshold 150. -/
theorem C10_addXP_invariant_witness :
    1 ≤ engineInit.xpToNext ∧
    (∃ k, (addXP 160 engineInit).level = engineInit.level + k ∧
      (addXP 160 engineInit).xpToNext = thrIter engineInit.xpToNext k ∧
      (addXP 160 engineInit).xp + thrSum engineInit.xpToNext k =
        engineInit.xp + 160 ∧
      (addXP 160 engineInit).xp < (addXP 160 engineInit).xpToNext) :=
  ⟨by decide, (C10_addXP_invariant engineInit 160 (by decide)).1⟩

/-- C9: for every hotbar index outside the valid range 0..8,
`switchHotbar` is a no-op: it returns at once with the engine state
unchanged (in particular it neither plays a sound, changes
`hotbarIndex` or the biome, nor enters the `switchBiome` mutual
recursion, so no exception or divergence is possible). -/
theorem C9_switchHotbar_noop (fuel : ℕ) (idx : ℤ) (s : EngineState)
    (h : idx < 0 ∨ idx > 8) :
    switchHotbar (fuel + 1) idx s = some s := by
  unfold switchHotbar
  rw [if_pos h]

/-- C9 witness: index 9 (just past the hotbar) leaves the initial
engine state untouched. -/
theorem C9_switchHotbar_noop_witness :
    ((9 : ℤ) < 0 ∨ (9 : ℤ) > 8) ∧ switchHotbar 1 9 engineInit = some engineInit :=
  ⟨Or.inr (by decide), C9_switchHotbar_noop 0 9 engineInit (Or.inr (by decide))⟩

/-- A progress state with the master volume slider at zero (a value the
UI can produce); used to refute the literal round-trip claim. -/
def progZeroVolume : EngineState :=
  { engineInit with
    xp := 42, level := 3, unlockedAchievements := ["First Block"],
    volume := 0 }

/-- C3 counterexample: saving a state whose `volume` is `0` and loading
it back yields `0.5`, because `SaveManager.load` applies `|| 0.5` and
JavaScript treats `0` as falsy — so load-after-save is *not* the
identity on the volume field for all values. -/
theorem C3_counterexample :
    (smLoad (some (smSave progZeroVolume 0)) progZeroVolume).volume ≠
      progZeroVolume.volume := by
  show jsOrQ (0 : ℚ) (1/2) ≠ (0 : ℚ)
  norm_num [jsOrQ]

/-- C3 (amended): load-after-save reproduces `xp`, the achievement set
and the theme exactly; it reproduces `level`, `volume` and `sfxVolume`
exactly *when they are non-zero*; the zero values hit the `||` defaults
of `SaveManager.load` and come back as `1`, `0.5` and `0.7`
respectively. -/
theorem C3_roundtrip (s : EngineState) (t : ℕ) :
    (smLoad (some (smSave s t)) s).xp = s.xp ∧
    (smLoad (some (smSave s t)) s).unlockedAchievements =
      s.unlockedAchievements ∧
    (smLoad (some (smSave s t)) s).darkTheme = s.darkTheme ∧
    (s.level ≠ 0 → (smLoad (some (smSave s t)) s).level = s.level) ∧
    (s.volume ≠ 0 → (smLoad (some (smSave s t)) s).volume = s.volume) ∧
    (s.sfxVolume ≠ 0 → (smLoad (some (smSave s t)) s).sfxVolume = s.sfxVolume) ∧
    (s.level = 0 → (smLoad (some (smSave s t)) s).level = 1) ∧
    (s.volume = 0 → (smLoad (some (smSave s t)) s).volume = 1/2) ∧
    (s.sfxVolume = 0 → (smLoad (some (smSave s t)) s).sfxVolume = 7/10) := by
  refine ⟨?_, rfl, rfl, ?_, ?_, ?_, ?_, ?_, ?_⟩
  · show jsOrN s.xp 0 = s.xp
    unfold jsOrN
    split <;> omega
  · intro h
    show jsOrN s.level 1 = s.level
    unfold jsOrN
    rw [if_neg h]
  · intro h
    show jsOrQ s.volume (1/2) = s.volume
    unfold jsOrQ
    rw [if_neg h]
  · intro h
    show jsOrQ s.sfxVolume (7/10) = s.sfxVolume
    unfold jsOrQ
    rw [if_neg h]
  · intro h
    show jsOrN s.level 1 = 1
    unfold jsOrN
    rw [if_pos h]
  · intro h
    show jsOrQ s.volume (1/2) = 1/2
    unfold jsOrQ
    rw [if_pos h]
  · intro h
    show jsOrQ s.sfxVolume (7/10) = 7/10
    unfold jsOrQ
    rw [if_pos h]

theorem engineInit_volume_ne : engineInit.volume ≠ 0 := by
  norm_num [engineInit]

theorem engineInit_level_ne : engineInit.level ≠ 0 := by
  norm_num [engineInit]

/-- C3 witness: at the default state (non-zero level and volumes) the
round-trip is the identity on the claim's fields. -/
theorem C3_roundtrip_witness :
    engineInit.volume ≠ 0 ∧ engineInit.level ≠ 0 ∧
    (smLoad (some (smSave engineInit 0)) engineInit).volume =
      engineInit.volume ∧
    (smLoad (some (smSave engineInit 0)) engineInit).level =
      engineInit.level ∧
    (smLoad (some (smSave engineInit 0)) engineInit).xp = engineInit.xp :=
  ⟨engineInit_volume_ne, engineInit_level_ne,
    (C3_roundtrip engineInit 0).2.2.2.2.1 engineInit_volume_ne,
    (C3_roundtrip engineInit 0).2.2.2.1 engineInit_level_ne,
    (C3_roundtrip engineInit 0).1⟩

/-- A sample toast (the welcome toast of `startGame`). -/
def uiToastA : UIToast :=
  { title := "Welcome!", descr := "Use 1-9 to navigate sections", id := 0 }

/-- A second sample toast (a block-break fact reveal). -/
def uiToastB : UIToast :=
  { title := "Block Broken!", descr := "A fact", id := 1 }

/-- C1 counterexample: the module version's `createToast` (one of the
two enqueue operations the claim ranges over) displays every toast
immediately by prepending it to `#toastWrap`; two back-to-back calls
leave two toasts on screen in the same instant, violating "at most one
toast is in the visible-or-dismissing state". -/
theorem C1_counterexample :
    ¬ ((createToast "Block Broken!" "A fact"
        (createToast "Welcome!" "Hi" toastStackInit)).nodes.length ≤ 1) := by
  decide

/-- C1 (amended): the claim holds for the `UIManager` queue
(`showToast` / `processToastQueue`): for every event sequence, at most
one toast element is on screen (visible or dismissing), the display
history followed by the pending queue equals the enqueue history (so
toasts become visible in exact FIFO enqueue order), and a `showToast`
arriving while a toast is showing only extends the queue, leaving the
on-screen element and the display history untouched.  The module
version's `createToast` has no queue and displays immediately (see the
counterexample). -/
theorem C1_toast_queue (evs : List UEv) (t : UIToast) :
    (runUIM evs).container.length ≤ 1 ∧
    (runUIM evs).shownLog ++ (runUIM evs).toastQueue = (runUIM evs).enqLog ∧
    ((runUIM evs).isShowingToast = true →
      (showToast t (runUIM evs)).container = (runUIM evs).container ∧
      (showToast t (runUIM evs)).shownLog = (runUIM evs).shownLog ∧
      (showToast t (runUIM evs)).toastQueue = (runUIM evs).toastQueue ++ [t]) := by
  obtain ⟨h1, h2, h3, h4⟩ := uimInv_run evs
  refine ⟨h1, h3, ?_⟩
  intro hshow
  unfold showToast processToastQueue
  rw [if_pos (Or.inl hshow)]
  exact ⟨rfl, rfl, rfl⟩

/-- C1 witness: after one enqueue a toast is showing; a second
`showToast` call leaves the on-screen element unchanged. -/
theorem C1_toast_queue_witness :
    (runUIM [UEv.enq uiToastA]).isShowingToast = true ∧
    (showToast uiToastB (runUIM [UEv.enq uiToastA])).container =
      (runUIM [UEv.enq uiToastA]).container :=
  ⟨by decide, ((C1_toast_queue [UEv.enq uiToastA] uiToastB).2.2 (by decide)).1⟩

theorem tqProcess_pop {s : TQ} {u : UIToast} {rest : List UIToast}
    (hc : s.cur = none) (hq : s.queue = u :: rest) :
    tqProcess s =
      { s with
        queue := rest,
        cur := some (u, TPhase.entering, s.now + toastEnterMs) } := by
  simp [tqProcess, hc, hq]

/-- C7: in the timed model of `processToastQueue`, every toast's
fully-visible phase ends exactly `toastShowMs = 3000` ms after the
instant it became visible, its dismissing phase ends exactly
`toastExitMs = 500` ms after that, at that deadline the queue processor
is re-invoked and pulls the next queued toast (starting its entrance),
and consecutive visibility instants are always at least
`3000 + 500` ms apart — the next toast becomes visible no earlier than
display interval plus exit interval after the previous one. -/
theorem C7_toast_timing (evs : List TEv) :
    (∀ t dl, (runTQ evs).cur = some (t, TPhase.shown, dl) →
      dl = lastVis (runTQ evs) + toastShowMs) ∧
    (∀ t dl, (runTQ evs).cur = some (t, TPhase.dismissing, dl) →
      dl = lastVis (runTQ evs) + toastShowMs + toastExitMs) ∧
    (∀ t dl u rest, (runTQ evs).cur = some (t, TPhase.dismissing, dl) →
      (runTQ evs).queue = u :: rest →
      tqStep (runTQ evs) .fireNext =
        { runTQ evs with
          now := dl, queue := rest,
          cur := some (u, TPhase.entering, dl + toastEnterMs) }) ∧
    List.Chain' (fun a b => a + (toastShowMs + toastExitMs) ≤ b)
      (runTQ evs).visLog := by
  obtain ⟨hch, hent, hsh, hdis, hidle⟩ := tqInv_run evs
  refine ⟨?_, ?_, ?_, hch⟩
  · intro t dl h
    exact (hsh t dl h).2.2
  · intro t dl h
    exact (hdis t dl h).2.2
  · intro t dl u rest hc hq
    rw [tqStep_fire_dismissing hc,
      @tqProcess_pop { runTQ evs with now := dl, cur := none } u rest rfl hq]

/-- The event trace driving the C7 witness: two enqueues, then the
entrance-complete and display timers of the first toast fire. -/
def tqTrace : List TEv :=
  [TEv.enq uiToastA, TEv.enq uiToastB, TEv.fireNext, TEv.fireNext]

/-- C7 witness: after the trace, toast A is dismissing with removal
deadline 4000 = visibility instant 500 + 3000 + 500, and firing that
deadline starts toast B's entrance at 4500. -/
theorem C7_toast_timing_witness :
    (runTQ tqTrace).cur = some (uiToastA, TPhase.dismissing, 4000) ∧
    (runTQ tqTrace).queue = [uiToastB] ∧
    4000 = lastVis (runTQ tqTrace) + toastShowMs + toastExitMs ∧
    tqStep (runTQ tqTrace) .fireNext =
      { runTQ tqTrace with
        now := 4000, queue := [],
        cur := some (uiToastB, TPhase.entering, 4000 + toastEnterMs) } :=
  ⟨by decide, by decide,
    (C7_toast_timing tqTrace).2.1 uiToastA 4000 (by decide),
    (C7_toast_timing tqTrace).2.2.1 uiToastA 4000 uiToastB [] (by decide) (by decide)⟩

/-- C4: in every collision pass of `setupParkour`'s tick, a platform
check snaps the body (bottom edge to the surface, vertical velocity
zeroed, grounded) if and only if the body's horizontal extent overlaps
the platform's, its bottom edge lies in the `[y, y + 16)` top-surface
band, and it is moving downward (`vy >= 0`); and over the whole pass, a
body moving upward (`vy < 0`) is never snapped — the pass only clears
`onGround`. -/
theorem C4_collision_iff (p : Player) (pl : Plat) (s : ParkourState) :
    (collideOne p pl =
      if p.x + p.w > pl.x ∧ p.x < pl.x + pl.w ∧
          pl.y ≤ p.y + p.h ∧ p.y + p.h < pl.y + 16 ∧ 0 ≤ p.vy
        then snapTo p pl else p) ∧
    (s.player.vy < 0 →
      (collidePhase s).player = { s.player with onGround := false }) := by
  constructor
  · by_cases h1 : p.x + p.w > pl.x ∧ p.x < pl.x + pl.w
    · by_cases h2 : pl.y ≤ p.y + p.h ∧ p.y + p.h < pl.y + 16 ∧ 0 ≤ p.vy
      · rw [collideOne_of_hit h1 ⟨h2.1, h2.2.1⟩ h2.2.2,
          if_pos ⟨h1.1, h1.2, h2.1, h2.2.1, h2.2.2⟩]
      · rw [if_neg (fun hc => h2 ⟨hc.2.2.1, hc.2.2.2.1, hc.2.2.2.2⟩)]
        unfold collideOne
        rw [if_pos (show p.x + p.w > pl.x ∧ p.x < pl.x + pl.w from h1),
          if_neg (show ¬(p.y + p.h ≥ pl.y ∧ p.y + p.h < pl.y + 16 ∧ p.vy ≥ 0)
            from fun hc => h2 ⟨hc.1, hc.2.1, hc.2.2⟩)]
    · rw [collideOne_of_not_overlap h1,
        if_neg (fun hc => h1 ⟨hc.1, hc.2.1⟩)]
  · intro h
    show parkourPlatforms.foldl collideOne { s.player with onGround := false } = _
    exact foldl_collideOne_up parkourPlatforms _ h

/-- A body rising through the air (mid-jump, above the mid platform). -/
def risingState : ParkourState :=
  { parkourInit with player := { playerInit with x := 320, y := 150, vy := -5 } }

theorem risingState_vy_neg : risingState.player.vy < 0 := by
  norm_num [risingState, playerInit]

/-- C4 witness: the upward-moving body crosses platform 3's surface
band but the pass does not snap it — it only clears `onGround`. -/
theorem C4_collision_iff_witness :
    risingState.player.vy < 0 ∧
    (collidePhase risingState).player =
      { risingState.player with onGround := false } :=
  ⟨risingState_vy_neg,
    (C4_collision_iff playerInit
      { x := 10, y := arenaH - 28, w := 120, h := 20 } risingState).2
      risingState_vy_neg⟩

/-! ### C5: destroy() on the physics loop handle -/

theorem runFrames_halted :
    ∀ (evs : List (Input × ℚ)) (h : Handle), h.sim.running = false →
      (runFrames evs h).sim.tickCount ≤
        h.sim.tickCount + (if h.pending then 1 else 0) ∧
      (runFrames evs h).sim.running = false ∧
      (evs ≠ [] → (runFrames evs h).pending = false)
  | [], h, hrun => ⟨Nat.le_add_right _ _, hrun, fun c => absurd rfl c⟩
  | e :: evs, h, hrun => by
      rw [show runFrames (e :: evs) h = runFrames evs (fireFrame e.1 e.2 h) from rfl]
      by_cases hp : h.pending = true
      · have hf : fireFrame e.1 e.2 h =
            { h with
              sim := step e.1 e.2 h.sim,
              pending := (step e.1 e.2 h.sim).running } := by
          unfold fireFrame
          rw [if_pos hp]
        have hrun' : (step e.1 e.2 h.sim).running = false :=
          step_running_false e.1 e.2 hrun
        obtain ⟨ih1, ih2, _⟩ := runFrames_halted evs (fireFrame e.1 e.2 h)
          (by rw [hf]; exact hrun')
        refine ⟨?_, ih2, fun _ => ?_⟩
        · refine le_trans ih1 ?_
          rw [hf, hp]
          simp only [step_tick_succ, hrun']
          simp
        · cases evs with
          | nil =>
              show (fireFrame e.1 e.2 h).pending = false
              rw [hf]
              exact hrun'
          | cons e2 evs2 =>
              obtain ⟨_, _, ih3⟩ := runFrames_halted (e2 :: evs2)
                (fireFrame e.1 e.2 h) (by rw [hf]; exact hrun')
              exact ih3 (by simp)
      · have hf : fireFrame e.1 e.2 h = h := by
          unfold fireFrame
          rw [if_neg hp]
        rw [hf]
        obtain ⟨ih1, ih2, ih3⟩ := runFrames_halted evs h hrun
        refine ⟨le_trans ih1 (by omega), ih2, fun _ => ?_⟩
        cases evs with
        | nil =>
            show h.pending = false
            exact Bool.not_eq_true _ ▸ (by simpa using hp)
        | cons e2 evs2 => exact ih3 (by simp)

/-- C5 counterexample: `destroy()` clears `running` and removes the key
listeners but does not cancel the already-scheduled animation frame.
When that frame fires after `destroy()` has returned, the step body
still executes once (the ghost tick counter advances), contradicting
"after destroy() returns, no further physics tick executes". -/
theorem C5_counterexample :
    (fireFrame noInput 1 (destroy handleInit)).sim.tickCount ≠
      (destroy handleInit).sim.tickCount := by
  have hp : (destroy handleInit).pending = true := rfl
  have hf : fireFrame noInput 1 (destroy handleInit) =
      { destroy handleInit with
        sim := step noInput 1 (destroy handleInit).sim,
        pending := (step noInput 1 (destroy handleInit).sim).running } := by
    unfold fireFrame
    rw [if_pos hp]
  rw [hf]
  show (step noInput 1 (destroy handleInit).sim).tickCount ≠ _
  rw [step_tick_succ]
  omega

/-- C5 (amended): `destroy()` is idempotent and unsubscribes both key
listeners; it prevents any *new* tick from being scheduled — across any
sequence of later animation frames at most the one already-pending tick
executes, the loop stays stopped, and after the first subsequent frame
nothing is pending any more.  (The already-scheduled frame is not
cancelled, so exactly one more tick may still run; see the
counterexample.) -/
theorem C5_destroy (h : Handle) (evs : List (Input × ℚ)) :
    destroy (destroy h) = destroy h ∧
    (destroy h).keydownSub = false ∧
    (destroy h).keyupSub = false ∧
    (runFrames evs (destroy h)).sim.tickCount ≤ h.sim.tickCount + 1 ∧
    (runFrames evs (destroy h)).sim.running = false ∧
    (evs ≠ [] → (runFrames evs (destroy h)).pending = false) := by
  obtain ⟨h1, h2, h3⟩ := runFrames_halted evs (destroy h) rfl
  refine ⟨rfl, rfl, rfl, le_trans h1 ?_, h2, h3⟩
  show h.sim.tickCount + (if (destroy h).pending then 1 else 0) ≤ _
  split <;> omega

/-! ### C6: fall-through reset -/

theorem toasts_preFall (inp : Input) (dt : ℚ) (s : ParkourState) :
    (preFall inp dt s).toasts = s.toasts := rfl

theorem sounds_preFall (inp : Input) (dt : ℚ) (s : ParkourState) :
    (preFall inp dt s).sounds = s.sounds ∨
    (preFall inp dt s).sounds = s.sounds ++ ["click"] := by
  show (movePhase inp dt s).sounds = _ ∨ (movePhase inp dt s).sounds = _
  unfold movePhase
  by_cases hj : (inp.up && s.player.onGround) = true
  · exact Or.inr (by simp [hj])
  · exact Or.inl (by simp [hj])

theorem xp_preFall (inp : Input) (dt : ℚ) (s : ParkourState) :
    (preFall inp dt s).xp = s.xp := rfl

theorem achievements_preFall (inp : Input) (dt : ℚ) (s : ParkourState) :
    (preFall inp dt s).achievements = s.achievements := rfl

theorem running_preFall (inp : Input) (dt : ℚ) (s : ParkourState) :
    (preFall inp dt s).running = s.running := rfl

/-- C6 (amended): on any tick whose post-collision, post-clamp position
lies below the arena (`y > 320`), the body is reset to the spawn point
(`x = 20`, `y = 320 - 48`) with zero *vertical* velocity (the
horizontal velocity keeps the input-derived value of that tick — see
the counterexample), and exactly one fall toast and one page-sound
trigger are emitted for that tick. -/
theorem C6_fall_reset (s : ParkourState) (inp : Input) (dt : ℚ)
    (hfall : (preFall inp dt s).player.y > arenaH) :
    (step inp dt s).player.x = 20 ∧
    (step inp dt s).player.y = arenaH - 48 ∧
    (step inp dt s).player.vy = 0 ∧
    fellCount (step inp dt s) = fellCount s + 1 ∧
    pageSoundCount (step inp dt s) = pageSoundCount s + 1 := by
  have hfp : fallPhase (preFall inp dt s) =
      { preFall inp dt s with
        player := { (preFall inp dt s).player with
                    x := 20, y := arenaH - 48, vy := 0 },
        toasts := (preFall inp dt s).toasts ++
          [("Parkour", "You fell. Resetting run...")],
        sounds := (preFall inp dt s).sounds ++ ["page"] } := by
    unfold fallPhase
    rw [if_pos hfall]
  have hwin : winPhase (fallPhase (preFall inp dt s)) =
      fallPhase (preFall inp dt s) := by
    unfold winPhase
    rw [if_neg]
    rw [hfp]
    show ¬((20 : ℚ) > arenaW - 120)
    norm_num [arenaW]
  have hplayer : (step inp dt s).player = (fallPhase (preFall inp dt s)).player := by
    show (winPhase (preWin inp dt s)).player = _
    rw [winPhase_player]
    rfl
  have htoasts : (step inp dt s).toasts = (fallPhase (preFall inp dt s)).toasts := by
    show (winPhase (preWin inp dt s)).toasts = _
    rw [show preWin inp dt s = fallPhase (preFall inp dt s) from rfl, hwin]
  have hsounds : (step inp dt s).sounds = (fallPhase (preFall inp dt s)).sounds := by
    show (winPhase (preWin inp dt s)).sounds = _
    rw [show preWin inp dt s = fallPhase (preFall inp dt s) from rfl, hwin]
  refine ⟨?_, ?_, ?_, ?_, ?_⟩
  · rw [hplayer, hfp]
  · rw [hplayer, hfp]
  · rw [hplayer, hfp]
  · unfold fellCount
    rw [htoasts, hfp]
    simp only [toasts_preFall, List.countP_append]
    simp
  · unfold pageSoundCount
    rw [hsounds, hfp]
    rcases sounds_preFall inp dt s with hs | hs <;>
      rw [hs] <;> simp [List.countP_append]

/-- A body far below the arena floor about to trigger the fall check,
with the right-arrow key held. -/
def fallenState : ParkourState :=
  { parkourInit with player := { playerInit with x := 100, y := 400 } }

theorem fallenState_falls : (preFall rightInput 1 fallenState).player.y > arenaH := by
  norm_num [preFall, clampPhase, collidePhase, movePhase, collideOne,
    parkourPlatforms, parkourInit, playerInit, fallenState, rightInput,
    arenaW, arenaH, List.foldl]

/-- C6 counterexample: on the fall tick with the right key held the
body is indeed reset to the spawn point and its vertical velocity is
zeroed, but its velocity is *not* zero: `vx` keeps the input-derived
value `2.9`, refuting "reset to the initial spawn position with zero
velocity". -/
theorem C6_counterexample :
    (preFall rightInput 1 fallenState).player.y > arenaH ∧
    (step rightInput 1 fallenState).player.x = 20 ∧
    (step rightInput 1 fallenState).player.y = arenaH - 48 ∧
    (step rightInput 1 fallenState).player.vy = 0 ∧
    (step rightInput 1 fallenState).player.vx ≠ 0 := by
  refine ⟨fallenState_falls, ?_, ?_, ?_, ?_⟩ <;>
    norm_num [step, preWin, preFall, winPhase, fallPhase, clampPhase,
      collidePhase, movePhase, collideOne, awardAchievement,
      parkourPlatforms, parkourInit, playerInit, fallenState, rightInput,
      arenaW, arenaH, List.foldl]

/-- C6 witness: the amended fall-reset behaviour at the concrete fall
tick (position reset, vertical velocity zeroed, one fall toast, one
page sound). -/
theorem C6_fall_reset_witness :
    (preFall rightInput 1 fallenState).player.y > arenaH ∧
    (step rightInput 1 fallenState).player.y = arenaH - 48 ∧
    fellCount (step rightInput 1 fallenState) = fellCount fallenState + 1 :=
  ⟨fallenState_falls,
    (C6_fall_reset fallenState rightInput 1 fallenState_falls).2.1,
    (C6_fall_reset fallenState rightInput 1 fallenState_falls).2.2.2.1⟩

/-! ### C2: victory condition -/

theorem completedCount_preWin (inp : Input) (dt : ℚ) (s : ParkourState) :
    completedCount (preWin inp dt s) = completedCount s := by
  unfold completedCount
  show (fallPhase (preFall inp dt s)).toasts.countP _ = _
  unfold fallPhase
  split
  · show ((preFall inp dt s).toasts ++ _).countP _ = _
    rw [List.countP_append, toasts_preFall]
    simp
  · rw [toasts_preFall]

/-- C2: on the first tick whose post-fall-check horizontal position
exceeds the win threshold `clientWidth - 120`, the loop emits exactly
one "Parkour Complete" notification, applies exactly one XP award
clamped at the maximum (`xp := min 100 (xp + 15)`), unlocks the
`parkour-complete` achievement exactly once, and clears `running`, so
`runLoop` schedules no further tick; moreover a tick that does not
cross the threshold emits no completion notification and leaves
`running` unchanged, so the completion effects happen exactly once per
run. -/
theorem C2_win (s : ParkourState) (inp : Input) (dt : ℚ)
    (hwin : (preWin inp dt s).player.x > arenaW - 120)
    (hnew : "parkour-complete" ∉ s.achievements) :
    completedCount (step inp dt s) = completedCount s + 1 ∧
    (step inp dt s).xp = min 100 (s.xp + 15) ∧
    (step inp dt s).achievements = "parkour-complete" :: s.achievements ∧
    (step inp dt s).running = false ∧
    (∀ evs, runLoop evs (step inp dt s) = step inp dt s) ∧
    (∀ s2 inp2 dt2, ¬ (preWin inp2 dt2 s2).player.x > arenaW - 120 →
      completedCount (step inp2 dt2 s2) = completedCount s2 ∧
      (step inp2 dt2 s2).running = s2.running) := by
  have hnew' : "parkour-complete" ∉ (preWin inp dt s).achievements := by
    rw [preWin_achievements]
    exact hnew
  have haw : ∀ s3 : ParkourState, "parkour-complete" ∉ s3.achievements →
      awardAchievement "parkour-complete" "Parkour Master"
        "Completed a parkour run." s3 =
      { s3 with
        achievements := "parkour-complete" :: s3.achievements,
        toasts := s3.toasts ++
          [("Parkour Master", "Completed a parkour run.")],
        sounds := s3.sounds ++ ["achievement"] } := by
    intro s3 hn
    unfold awardAchievement
    rw [if_neg hn]
  have hwp : winPhase (preWin inp dt s) =
      { preWin inp dt s with
        achievements := "parkour-complete" :: (preWin inp dt s).achievements,
        toasts := ((preWin inp dt s).toasts ++
          [("Parkour Complete", "You reached the end — +15 XP")]) ++
          [("Parkour Master", "Completed a parkour run.")],
        sounds := ((preWin inp dt s).sounds ++ ["xp"]) ++ ["achievement"],
        xp := min 100 ((preWin inp dt s).xp + 15),
        running := false } := by
    unfold winPhase
    rw [if_pos hwin]
    exact haw _ hnew'
  have hrun : (step inp dt s).running = false := by
    show (winPhase (preWin inp dt s)).running = false
    rw [hwp]
  refine ⟨?_, ?_, ?_, hrun, ?_, ?_⟩
  · show (step inp dt s).toasts.countP _ = _
    have ht : (step inp dt s).toasts =
        ((preWin inp dt s).toasts ++
          [("Parkour Complete", "You reached the end — +15 XP")]) ++
          [("Parkour Master", "Completed a parkour run.")] := by
      show (winPhase (preWin inp dt s)).toasts = _
      rw [hwp]
    rw [ht, List.countP_append, List.countP_append]
    have hc : completedCount (preWin inp dt s) = completedCount s :=
      completedCount_preWin inp dt s
    unfold completedCount at hc
    rw [hc]
    show completedCount s + _ + _ = _
    simp
  · show (winPhase (preWin inp dt s)).xp = _
    rw [hwp]
    show min 100 ((preWin inp dt s).xp + 15) = _
    rw [preWin_xp]
  · show (winPhase (preWin inp dt s)).achievements = _
    rw [hwp]
    show "parkour-complete" :: (preWin inp dt s).achievements = _
    rw [preWin_achievements]
  · intro evs
    cases evs with
    | nil => rfl
    | cons e evs =>
        show (if (step inp dt s).running = true then _ else _) = _
        rw [hrun]
        simp
  · intro s2 inp2 dt2 hno
    have hwp2 : winPhase (preWin inp2 dt2 s2) = preWin inp2 dt2 s2 := by
      unfold winPhase
      rw [if_neg hno]
    constructor
    · show completedCount (winPhase (preWin inp2 dt2 s2)) = _
      rw [hwp2, completedCount_preWin]
    · show (winPhase (preWin inp2 dt2 s2)).running = _
      rw [hwp2, preWin_running]

/-- A run one tick away from the win threshold, with the module XP at
the spec's example value 85. -/
def c2State : ParkourState :=
  { parkourInit with
    player := { playerInit with x := 600, y := 100 },
    xp := 85 }

theorem c2State_wins : (preWin noInput 0 c2State).player.x > arenaW - 120 := by
  norm_num [preWin, preFall, fallPhase, clampPhase, collidePhase, movePhase,
    collideOne, parkourPlatforms, parkourInit, playerInit, c2State, noInput,
    arenaW, arenaH, List.foldl]

/-- C2 witness: at the concrete winning tick the completion toast count
goes from 0 to 1, the XP award is clamped (`85 + 15` capped at 100
gives 100), and the loop stops. -/
theorem C2_win_witness :
    (preWin noInput 0 c2State).player.x > arenaW - 120 ∧
    completedCount (step noInput 0 c2State) = completedCount c2State + 1 ∧
    (step noInput 0 c2State).xp = min 100 (c2State.xp + 15) ∧
    (step noInput 0 c2State).running = false :=
  ⟨c2State_wins,
    (C2_win c2State noInput 0 c2State_wins (List.not_mem_nil _)).1,
    (C2_win c2State noInput 0 c2State_wins (List.not_mem_nil _)).2.1,
    (C2_win c2State noInput 0 c2State_wins (List.not_mem_nil _)).2.2.2.1⟩

/-! ### C8: rest state is a fixed point of the tick -/

theorem clampPhase_id {s : ParkourState} (h1 : ¬ s.player.x < 0)
    (h2 : ¬ s.player.x + s.player.w > arenaW - 6) : clampPhase s = s := by
  simp only [clampPhase]
  rw [if_neg h1, if_neg h2]

theorem fallPhase_id {s : ParkourState} (h : ¬ s.player.y > arenaH) :
    fallPhase s = s := by
  unfold fallPhase
  rw [if_neg h]

theorem parkourPlatforms_y_le : ∀ pl ∈ parkourPlatforms, pl.y ≤ arenaH := by
  intro pl hm
  fin_cases hm <;> norm_num [arenaH]

/-- C8: a body resting on one of the level's platforms (bottom edge on
the surface, zero vertical velocity, grounded, horizontally over that
platform and no other) with no input intent is a fixed point of the
tick: after one `step` its position is unchanged and it is still
grounded.  (Gravity moves it down by `0.45·dt²` mid-tick, the collision
pass snaps it back, and the clamp, fall and win checks leave it in
place.) -/
theorem C8_rest_fixed_point (s : ParkourState) (pl : Plat) (dt : ℚ)
    (hmem : pl ∈ parkourPlatforms)
    (hdt0 : 0 ≤ dt) (hdt1 : dt ≤ dtMax)
    (hh : 0 ≤ s.player.h)
    (hrest : s.player.y + s.player.h = pl.y)
    (hvy : s.player.vy = 0)
    (hgnd : s.player.onGround = true)
    (hover : hOverlap s.player pl)
    (huniq : ∀ pl' ∈ parkourPlatforms, hOverlap s.player pl' → pl' = pl)
    (hxlo : ¬ s.player.x < 0)
    (hxhi : ¬ s.player.x + s.player.w > arenaW - 6) :
    (step noInput dt s).player.x = s.player.x ∧
    (step noInput dt s).player.y = s.player.y ∧
    (step noInput dt s).player.onGround = true := by
  have hmx : (movePhase noInput dt s).player.x = s.player.x := by
    unfold movePhase
    simp [noInput]
  have hmy : (movePhase noInput dt s).player.y =
      s.player.y + 9/20 * dt * dt := by
    unfold movePhase
    simp [noInput, hvy]
  have hmvy : (movePhase noInput dt s).player.vy = 9/20 * dt := by
    unfold movePhase
    simp [noInput, hvy]
  have hmw : (movePhase noInput dt s).player.w = s.player.w := rfl
  have hmh : (movePhase noInput dt s).player.h = s.player.h := rfl
  have hdtsq : 0 ≤ 9/20 * dt * dt :=
    mul_nonneg (mul_nonneg (by norm_num) hdt0) hdt0
  have hsq_lt : 9/20 * dt * dt < 16 := by
    have h1 : dt * dt ≤ dtMax * dtMax := mul_self_le_mul_self hdt0 hdt1
    have h2 : (9 : ℚ)/20 * (dtMax * dtMax) < 16 := by norm_num [dtMax]
    nlinarith
  have hq : (collidePhase (movePhase noInput dt s)).player =
      snapTo { (movePhase noInput dt s).player with onGround := false } pl := by
    show parkourPlatforms.foldl collideOne
      { (movePhase noInput dt s).player with onGround := false } = _
    refine foldl_collideOne_unique parkourPlatforms _ pl hmem ?_ ?_ ?_ ?_ ?_
    · intro pl' hm' hov
      refine huniq pl' hm' ?_
      obtain ⟨ho1, ho2⟩ := hov
      refine ⟨?_, ?_⟩
      · rw [← hmx, ← hmw]; exact ho1
      · rw [← hmx]; exact ho2
    · obtain ⟨ho1, ho2⟩ := hover
      refine ⟨?_, ?_⟩
      · show _ + _ > pl.x
        rw [show ({ (movePhase noInput dt s).player with onGround := false } :
            Player).x = s.player.x from hmx,
          show ({ (movePhase noInput dt s).player with onGround := false } :
            Player).w = s.player.w from hmw]
        exact ho1
      · show _ < pl.x + pl.w
        rw [show ({ (movePhase noInput dt s).player with onGround := false } :
            Player).x = s.player.x from hmx]
        exact ho2
    · show pl.y ≤ _ + _
      rw [show ({ (movePhase noInput dt s).player with onGround := false } :
          Player).y = s.player.y + 9/20 * dt * dt from hmy,
        show ({ (movePhase noInput dt s).player with onGround := false } :
          Player).h = s.player.h from hmh]
      linarith
    · show _ + _ < pl.y + 16
      rw [show ({ (movePhase noInput dt s).player with onGround := false } :
          Player).y = s.player.y + 9/20 * dt * dt from hmy,
        show ({ (movePhase noInput dt s).player with onGround := false } :
          Player).h = s.player.h from hmh]
      linarith
    · show (0 : ℚ) ≤ _
      rw [show ({ (movePhase noInput dt s).player with onGround := false } :
          Player).vy = 9/20 * dt from hmvy]
      exact mul_nonneg (by norm_num) hdt0
  have hqx : (collidePhase (movePhase noInput dt s)).player.x = s.player.x := by
    rw [hq]
    exact hmx
  have hqy : (collidePhase (movePhase noInput dt s)).player.y = s.player.y := by
    rw [hq]
    show pl.y - _ = s.player.y
    rw [show ({ (movePhase noInput dt s).player with onGround := false } :
        Player).h = s.player.h from hmh]
    linarith
  have hqw : (collidePhase (movePhase noInput dt s)).player.w = s.player.w := by
    rw [hq]
    exact hmw
  have hqg : (collidePhase (movePhase noInput dt s)).player.onGround = true := by
    rw [hq]
    rfl
  have hcl : clampPhase (collidePhase (movePhase noInput dt s)) =
      collidePhase (movePhase noInput dt s) := by
    refine clampPhase_id ?_ ?_
    · rw [hqx]; exact hxlo
    · rw [hqx, hqw]; exact hxhi
  have hply : pl.y ≤ arenaH := parkourPlatforms_y_le pl hmem
  have hfl : fallPhase (clampPhase (collidePhase (movePhase noInput dt s))) =
      clampPhase (collidePhase (movePhase noInput dt s)) := by
    refine fallPhase_id ?_
    rw [hcl, hqy]
    linarith
  have hfinal : (step noInput dt s).player =
      (collidePhase (movePhase noInput dt s)).player := by
    show (winPhase (preWin noInput dt s)).player = _
    rw [winPhase_player]
    show (fallPhase (clampPhase (collidePhase (movePhase noInput dt s)))).player = _
    rw [hfl, hcl]
  exact ⟨by rw [hfinal]; exact hqx, by rw [hfinal]; exact hqy,
    by rw [hfinal]; exact hqg⟩

/-- The first platform of the layout. -/
def firstPlat : Plat := { x := 10, y := arenaH - 28, w := 120, h := 20 }

/-- A body at rest on the first platform (bottom edge `272 + 20 = 292`
on the surface, grounded, zero velocity). -/
def restingState : ParkourState :=
  { parkourInit with player := { playerInit with onGround := true } }

theorem restingState_dt1 : (1 : ℚ) ≤ dtMax := by
  norm_num [dtMax]

theorem restingState_h : (0 : ℚ) ≤ restingState.player.h := by
  norm_num [restingState, parkourInit, playerInit]

theorem restingState_rest :
    restingState.player.y + restingState.player.h = firstPlat.y := by
  norm_num [restingState, parkourInit, playerInit, firstPlat, arenaH]

theorem restingState_over : hOverlap restingState.player firstPlat := by
  refine ⟨?_, ?_⟩ <;>
    norm_num [restingState, parkourInit, playerInit, firstPlat, arenaH]

theorem restingState_uniq :
    ∀ pl' ∈ parkourPlatforms, hOverlap restingState.player pl' →
      pl' = firstPlat := by
  intro pl' hm hov
  fin_cases hm
  · rfl
  all_goals
    exfalso
    obtain ⟨h1, h2⟩ := hov
    norm_num [restingState, parkourInit, playerInit, arenaH] at h1 h2

theorem restingState_xlo : ¬ restingState.player.x < 0 := by
  norm_num [restingState, parkourInit, playerInit]

theorem restingState_xhi :
    ¬ restingState.player.x + restingState.player.w > arenaW - 6 := by
  norm_num [restingState, parkourInit, playerInit, arenaW]

/-- C8 witness: the concrete body resting on the first platform is
unmoved and still grounded after a full-speed tick (`dt = 1`). -/
theorem C8_rest_fixed_point_witness :
    restingState.player.vy = 0 ∧
    restingState.player.onGround = true ∧
    (step noInput 1 restingState).player.x = restingState.player.x ∧
    (step noInput 1 restingState).player.y = restingState.player.y ∧
    (step noInput 1 restingState).player.onGround = true :=
  ⟨rfl, rfl,
    (C8_rest_fixed_point restingState firstPlat 1 (List.mem_cons_self _ _)
      zero_le_one restingState_dt1 restingState_h restingState_rest rfl rfl
      restingState_over restingState_uniq restingState_xlo restingState_xhi).1,
    (C8_rest_fixed_point restingState firstPlat 1 (List.mem_cons_self _ _)
      zero_le_one restingState_dt1 restingState_h restingState_rest rfl rfl
      restingState_over restingState_uniq restingState_xlo restingState_xhi).2.1,
    (C8_rest_fixed_point restingState firstPlat 1 (List.mem_cons_self _ _)
      zero_le_one restingState_dt1 restingState_h restingState_rest rfl rfl
      restingState_over restingState_uniq restingState_xlo restingState_xhi).2.2⟩
